import Mathlib

/-!
Shallow embedding of `src/LoadingCache.ts` (yaloc), a loading cache with
expire-after-access, expire-after-write and refresh-after-write timers and a
removal-notification callback.

Modelling choices:
* The JS `Map<K, V>` backing the cache is an association list with
  replace-in-place insertion (JS `Map.set` keeps the position of an existing
  key).
* JS truthiness of values (`if (existingValue)`, `if (oldValue)`, `if (value)`)
  is modelled by a predicate `truthy : V → Bool` carried in the configuration,
  since the cache is generic over the value type and the source tests values
  for truthiness, not presence.
* Numeric option truthiness (`if (expireAfterAccess)` on `number | undefined`)
  is `numTruthy : Option Nat → Bool`: `undefined` and `0` are falsy.
* `setTimeout` / `setInterval` handles are modelled by a pool `armed` of
  timers with fresh numeric ids, plus the three per-role registries
  (`afterAccessExpirationTimers`, …) mapping keys to handle ids, as in the
  source. `clearTimeout` / `clearInterval` remove a timer from the pool by id.
* The event loop is modelled by `fireDue`: advancing virtual time to a target
  fires the due timers in deadline order, each firing running the callback the
  source installs (`expire` for the two expiry roles, `load` for refresh,
  which is a `setInterval` and therefore reschedules itself). The recursion is
  bounded by explicit fuel.
* The removal listener, when installed (`hasOnRemove`), is modelled as an
  append to a notification `log`; the loader is a pure `K → Except E V`
  (success or synchronous-throw/rejection), and `loaderCalls` counts its
  invocations. The cooperative single-threaded model runs an `await` to
  completion with no interleaving.
-/

set_option linter.unusedVariables false
set_option linter.unusedSectionVars false

namespace Yaloc

/-- Removal causes, from the `RemovalCause` enum in `LoadingCache.ts`. -/
inductive RemovalCause where
  | EXPLICIT_DELETE
  | EXPIRED
  | REPLACED
deriving DecidableEq, Repr

/-- The three timer roles: the three timer registries of the cache. -/
inductive TimerRole where
  | access
  | write
  | refresh
deriving DecidableEq, Repr

/-- An armed JS timer: its handle id, the key and role it was armed for, its
absolute deadline, and `period = some p` when it is a `setInterval` (the
refresh role) rather than a one-shot `setTimeout`. -/
structure TimerInfo (K : Type) where
  id : Nat
  key : K
  role : TimerRole
  deadline : Nat
  period : Option Nat
deriving DecidableEq, Repr

/-- One invocation of the `onRemove` listener: `onRemove([key, value], cause)`. -/
structure Notice (K V : Type) where
  key : K
  value : V
  cause : RemovalCause
deriving DecidableEq, Repr

/-- The `LoadingCacheOptions` of the source, plus the JS-truthiness predicate
of the value type. `hasOnRemove` records whether an `onRemove` callback was
supplied; `loader` returns `Except.error` for a synchronous throw or an
asynchronous rejection. -/
structure Config (K V E : Type) where
  expireAfterWrite : Option Nat
  expireAfterAccess : Option Nat
  refreshAfterWrite : Option Nat
  hasOnRemove : Bool
  loader : K → Except E V
  truthy : V → Bool

/-- The mutable state of a `LoadingCache`: the table, the three timer
registries (key → timer handle id), the pool of armed timers, the next fresh
timer handle, the current virtual time, the log of listener invocations, and
the number of loader invocations. -/
structure CacheState (K V : Type) where
  table : List (K × V)
  accessTimers : List (K × Nat)
  writeTimers : List (K × Nat)
  refreshTimers : List (K × Nat)
  armed : List (TimerInfo K)
  nextId : Nat
  now : Nat
  log : List (Notice K V)
  loaderCalls : Nat
deriving DecidableEq, Repr

variable {K V E A : Type} [DecidableEq K]

/-- `Map.get`: lookup in an association list. -/
def alookup : List (K × A) → K → Option A
  | [], _ => none
  | (k', a) :: rest, k => if k = k' then some a else alookup rest k

/-- `Map.set`: replace in place if the key is present, else append. -/
def ainsert : List (K × A) → K → A → List (K × A)
  | [], k, a => [(k, a)]
  | (k', a') :: rest, k, a =>
      if k = k' then (k, a) :: rest else (k', a') :: ainsert rest k a

/-- `Map.delete`: remove the entry for a key. -/
def aerase : List (K × A) → K → List (K × A)
  | [], _ => []
  | (k', a') :: rest, k =>
      if k = k' then rest else (k', a') :: aerase rest k

/-- JS truthiness of a `number | undefined` option: `undefined` and `0` are
falsy. -/
def numTruthy : Option Nat → Bool
  | none => false
  | some d => !(d == 0)

/-- `clearTimeout` / `clearInterval`: cancel the timer with the given handle
id (a no-op if it is not armed). -/
def cancelId (armed : List (TimerInfo K)) (tid : Nat) : List (TimerInfo K) :=
  armed.filter (fun t => !(t.id == tid))

/-- The timer registry of a role (`afterAccessExpirationTimers`,
`afterWriteExpirationTimers`, `refreshAfterWriteTimers`). -/
def registryOf (s : CacheState K V) : TimerRole → List (K × Nat)
  | .access => s.accessTimers
  | .write => s.writeTimers
  | .refresh => s.refreshTimers

/-- Replace the timer registry of a role. -/
def setRegistry (s : CacheState K V) : TimerRole → List (K × Nat) → CacheState K V
  | .access, l => { s with accessTimers := l }
  | .write, l => { s with writeTimers := l }
  | .refresh, l => { s with refreshTimers := l }

/-- The shared body of the three `maybeSet…Timer` methods once the duration
check passed: cancel the timer currently registered for the key (if any), arm
a fresh timer at `now + d`, and register its handle. -/
def armAt (s : CacheState K V) (role : TimerRole) (k : K) (d : Nat)
    (period : Option Nat) : CacheState K V :=
  let s1 :=
    match alookup (registryOf s role) k with
    | some tid => { s with armed := cancelId s.armed tid }
    | none => s
  setRegistry
    { s1 with
      armed := s1.armed ++ [⟨s1.nextId, k, role, s1.now + d, period⟩],
      nextId := s1.nextId + 1 }
    role (ainsert (registryOf s1 role) k s1.nextId)

/-- `maybeSetAfterAccessExpirationTimer` (lines 119–132). -/
def maybeSetAfterAccessExpirationTimer (cfg : Config K V E) (s : CacheState K V)
    (k : K) : CacheState K V :=
  if numTruthy cfg.expireAfterAccess then
    armAt s .access k (cfg.expireAfterAccess.getD 0) none
  else s

/-- `maybeSetAfterWriteExpirationTimer` (lines 134–147). -/
def maybeSetAfterWriteExpirationTimer (cfg : Config K V E) (s : CacheState K V)
    (k : K) : CacheState K V :=
  if numTruthy cfg.expireAfterWrite then
    armAt s .write k (cfg.expireAfterWrite.getD 0) none
  else s

/-- `maybeSetRefreshAfterWriteTimer` (lines 149–162): a `setInterval`, so the
armed timer carries a period. -/
def maybeSetRefreshAfterWriteTimer (cfg : Config K V E) (s : CacheState K V)
    (k : K) : CacheState K V :=
  if numTruthy cfg.refreshAfterWrite then
    armAt s .refresh k (cfg.refreshAfterWrite.getD 0)
      (some (cfg.refreshAfterWrite.getD 0))
  else s

/-- One role's paragraph of `clearTimers`: if a handle is registered for the
key, cancel it and drop the registry entry. -/
def clearRole (s : CacheState K V) (role : TimerRole) (k : K) : CacheState K V :=
  match alookup (registryOf s role) k with
  | some tid =>
      setRegistry { s with armed := cancelId s.armed tid } role
        (aerase (registryOf s role) k)
  | none => s

/-- `clearTimers` (lines 164–182): clear the access, write and refresh timers
of a key. -/
def clearTimers (s : CacheState K V) (k : K) : CacheState K V :=
  clearRole (clearRole (clearRole s .access k) .write k) .refresh k

/-- The state right after the notify line of `set` (lines 46–52): the table
already holds the new value, the listener (if due) has just run, no timer has
been touched yet. This is the state the removal listener observes. -/
def setAfterNotify (cfg : Config K V E) (s : CacheState K V) (k : K) (v : V) :
    CacheState K V :=
  let oldValue := alookup s.table k
  let s1 := { s with table := ainsert s.table k v }
  match oldValue with
  | some ov =>
      if cfg.truthy ov && cfg.hasOnRemove then
        { s1 with log := s1.log ++ [⟨k, ov, .REPLACED⟩] }
      else s1
  | none => s1

/-- `set` (lines 45–57): store the value, notify `REPLACED` if a truthy old
value existed and a listener is installed, then (re)arm the write-expiry,
access-expiry and refresh timers. -/
def set (cfg : Config K V E) (s : CacheState K V) (k : K) (v : V) :
    CacheState K V :=
  maybeSetRefreshAfterWriteTimer cfg
    (maybeSetAfterAccessExpirationTimer cfg
      (maybeSetAfterWriteExpirationTimer cfg (setAfterNotify cfg s k v) k) k) k

/-- `load` (lines 92–96): invoke the loader; on success install the value via
`set` and return it, on failure propagate the error (no state change beyond
the loader invocation itself). -/
def load (cfg : Config K V E) (s : CacheState K V) (k : K) :
    Except E V × CacheState K V :=
  let s0 := { s with loaderCalls := s.loaderCalls + 1 }
  match cfg.loader k with
  | .error e => (.error e, s0)
  | .ok v => (.ok v, set cfg s0 k v)

/-- `get` (lines 32–43): on a truthy hit rearm the access-expiry timer and
return the value; otherwise load, then rearm the access-expiry timer. -/
def get (cfg : Config K V E) (s : CacheState K V) (k : K) :
    Except E V × CacheState K V :=
  match alookup s.table k with
  | some existingValue =>
      if cfg.truthy existingValue then
        (.ok existingValue, maybeSetAfterAccessExpirationTimer cfg s k)
      else
        match load cfg s k with
        | (.error e, s') => (.error e, s')
        | (.ok v, s') => (.ok v, maybeSetAfterAccessExpirationTimer cfg s' k)
  | none =>
      match load cfg s k with
      | (.error e, s') => (.error e, s')
      | (.ok v, s') => (.ok v, maybeSetAfterAccessExpirationTimer cfg s' k)

/-- `removeWithCause` (lines 102–117): if the stored value is truthy, clear
the key's timers, delete the entry, notify the listener, and report `true`;
otherwise do nothing and report `false`. -/
def removeWithCause (cfg : Config K V E) (s : CacheState K V) (k : K)
    (cause : RemovalCause) : Bool × CacheState K V :=
  match alookup s.table k with
  | some v =>
      if cfg.truthy v then
        let s1 := clearTimers s k
        let s2 := { s1 with table := aerase s1.table k }
        let s3 :=
          if cfg.hasOnRemove then { s2 with log := s2.log ++ [⟨k, v, cause⟩] }
          else s2
        (true, s3)
      else (false, s)
  | none => (false, s)

/-- `delete` (lines 59–61). -/
def delete (cfg : Config K V E) (s : CacheState K V) (k : K) :
    Bool × CacheState K V :=
  removeWithCause cfg s k .EXPLICIT_DELETE

/-- `expire` (lines 98–100): the callback of a fired expiry timer. -/
def expire (cfg : Config K V E) (s : CacheState K V) (k : K) : CacheState K V :=
  (removeWithCause cfg s k .EXPIRED).2

/-- `has` (lines 63–65): presence in the table (no truthiness check). -/
def has (s : CacheState K V) (k : K) : Bool :=
  (alookup s.table k).isSome

/-- `clear` (lines 68–70): empty the table, nothing else; the comment in the
source notes it does not run the `onRemove` listener. -/
def clear (s : CacheState K V) : CacheState K V :=
  { s with table := [] }

/-- `size` (lines 72–74). -/
def size (s : CacheState K V) : Nat :=
  s.table.length

/-- The guard the source applies before treating a stored value as removable
or replaceable: the key maps to a truthy value. -/
def isLive (cfg : Config K V E) (s : CacheState K V) (k : K) : Bool :=
  match alookup s.table k with
  | some v => cfg.truthy v
  | none => false

/-- A fired one-shot timer is gone; a fired interval stays armed with its
deadline pushed one period later. -/
def reschedule (s : CacheState K V) (t : TimerInfo K) : CacheState K V :=
  match t.period with
  | some p =>
      { s with
        armed := s.armed.map (fun u =>
          if u.id == t.id then { u with deadline := u.deadline + p } else u) }
  | none => { s with armed := cancelId s.armed t.id }

/-- Fire a timer: virtual time jumps to its deadline, the timer is rescheduled
(interval) or retired (timeout), then its callback runs — `expire` for the
expiry roles, `load` (result dropped) for refresh, as installed by the
`maybeSet…Timer` methods. -/
def fireTimer (cfg : Config K V E) (s : CacheState K V) (t : TimerInfo K) :
    CacheState K V :=
  let s1 := reschedule { s with now := t.deadline } t
  match t.role with
  | .refresh => (load cfg s1 t.key).2
  | _ => expire cfg s1 t.key

/-- The armed timer with the smallest deadline not exceeding `target` (ties
broken by arming order), if any. -/
def earliestDue (s : CacheState K V) (target : Nat) : Option (TimerInfo K) :=
  (s.armed.filter (fun t => t.deadline ≤ target)).foldl
    (fun acc t =>
      match acc with
      | none => some t
      | some b => if t.deadline < b.deadline then some t else acc)
    none

/-- The event loop advancing virtual time to `target`: repeatedly fire the
earliest due timer, for at most `fuel` firings, then settle the clock at
`target`. -/
def fireDue (cfg : Config K V E) : Nat → CacheState K V → Nat → CacheState K V
  | 0, s, target => { s with now := target }
  | fuel + 1, s, target =>
      match earliestDue s target with
      | none => { s with now := target }
      | some t => fireDue cfg fuel (fireTimer cfg s t) target

/-- Advance virtual time to `target`, with fuel bounding the firings by the
number of armed timers (exact whenever no firing arms a new due timer). -/
def advanceTo (cfg : Config K V E) (s : CacheState K V) (target : Nat) :
    CacheState K V :=
  fireDue cfg s.armed.length s target

/-- The operations a client or the event loop can perform on the cache. -/
inductive Op (K V : Type) where
  | getOp (k : K)
  | setOp (k : K) (v : V)
  | delOp (k : K)
  | clearOp
  | advanceOp (fuel : Nat) (target : Nat)

/-- One step of the cache's state machine. -/
def step (cfg : Config K V E) (s : CacheState K V) : Op K V → CacheState K V
  | .getOp k => (get cfg s k).2
  | .setOp k v => set cfg s k v
  | .delOp k => (delete cfg s k).2
  | .clearOp => clear s
  | .advanceOp fuel target => fireDue cfg fuel s target

/-- Run a sequence of operations. -/
def run (cfg : Config K V E) (s : CacheState K V) (ops : List (Op K V)) :
    CacheState K V :=
  ops.foldl (step cfg) s

/-- The state of a freshly constructed cache. -/
def initState (K V : Type) : CacheState K V :=
  ⟨[], [], [], [], [], 0, 0, [], 0⟩

/-- The number of armed timers for a (key, role) pair. -/
def countPair (s : CacheState K V) (k : K) (role : TimerRole) : Nat :=
  (s.armed.filter (fun t => t.key == k && t.role == role)).length

/-- Two configurations that the cache engine cannot distinguish: same loader,
value truthiness and listener, and role durations that agree both on their
truthiness test and on the duration used when armed. -/
def cfgSim (c1 c2 : Config K V E) : Prop :=
  c1.loader = c2.loader ∧ c1.truthy = c2.truthy ∧ c1.hasOnRemove = c2.hasOnRemove ∧
  numTruthy c1.expireAfterAccess = numTruthy c2.expireAfterAccess ∧
  c1.expireAfterAccess.getD 0 = c2.expireAfterAccess.getD 0 ∧
  numTruthy c1.expireAfterWrite = numTruthy c2.expireAfterWrite ∧
  c1.expireAfterWrite.getD 0 = c2.expireAfterWrite.getD 0 ∧
  numTruthy c1.refreshAfterWrite = numTruthy c2.refreshAfterWrite ∧
  c1.refreshAfterWrite.getD 0 = c2.refreshAfterWrite.getD 0

/-- JS truthiness of a number-valued cache entry: `0` is falsy. -/
def natTruthy : Nat → Bool := fun v => !(v == 0)

/-- A plain cache over `Nat` keys and values: no timers, no listener. -/
def cfgPlain : Config Nat Nat Unit :=
  ⟨none, none, none, false, fun k => .ok (k + 1), natTruthy⟩

/-- A cache whose loader always produces the falsy value `0`. -/
def cfgZeroLoader : Config Nat Nat Unit :=
  ⟨none, none, none, false, fun _ => .ok 0, natTruthy⟩

/-- A cache with a removal listener and no timers. -/
def cfgListener : Config Nat Nat Unit :=
  ⟨none, none, none, true, fun k => .ok (k + 1), natTruthy⟩

/-- A cache with `expireAfterWrite = 5` and a removal listener. -/
def cfgWrite5 : Config Nat Nat Unit :=
  ⟨some 5, none, none, true, fun k => .ok (k + 1), natTruthy⟩

/-- A cache whose loader always fails. -/
def cfgErrLoader : Config Nat Nat Unit :=
  ⟨none, none, none, false, fun _ => .error (), natTruthy⟩

/-- A cache with `refreshAfterWrite = 3` and a removal listener. -/
def cfgRefresh : Config Nat Nat Unit :=
  ⟨none, none, some 3, true, fun k => .ok (k + 7), natTruthy⟩

/-- A state holding the single (truthy) entry `1 ↦ 5`. -/
def exState1 : CacheState Nat Nat :=
  ⟨[(1, 5)], [], [], [], [], 0, 0, [], 0⟩

/-- A state holding the single falsy entry `1 ↦ 0`. -/
def exState0 : CacheState Nat Nat :=
  ⟨[(1, 0)], [], [], [], [], 0, 0, [], 0⟩

/-- Well-formedness of the timer machinery: every armed timer's handle is the
one registered for its key and role, armed handles are distinct, and all
armed handles are older than the next fresh handle. -/
def WF (s : CacheState K V) : Prop :=
  (∀ t ∈ s.armed, alookup (registryOf s t.role) t.key = some t.id) ∧
  (s.armed.map (fun t => t.id)).Nodup ∧
  (∀ t ∈ s.armed, t.id < s.nextId) ∧
  (s.table.map Prod.fst).Nodup

/-! ### Association-list lemmas -/

@[simp]
theorem alookup_nil (k : K) : alookup ([] : List (K × A)) k = none := rfl

@[simp]
theorem alookup_ainsert_self (l : List (K × A)) (k : K) (a : A) :
    alookup (ainsert l k a) k = some a := by
  induction l with
  | nil => simp [ainsert, alookup]
  | cons hd tl ih =>
      obtain ⟨k', a'⟩ := hd
      by_cases h : k = k'
      · subst h; simp [ainsert, alookup]
      · simp [ainsert, alookup, h, ih]

theorem alookup_ainsert_ne (l : List (K × A)) (k k' : K) (a : A) (h : k' ≠ k) :
    alookup (ainsert l k a) k' = alookup l k' := by
  induction l with
  | nil => simp [ainsert, alookup, h]
  | cons hd tl ih =>
      obtain ⟨k₀, a₀⟩ := hd
      by_cases hk : k = k₀
      · subst hk; simp [ainsert, alookup, h]
      · by_cases hk' : k' = k₀
        · subst hk'; simp [ainsert, alookup, hk]
        · simp [ainsert, alookup, hk, hk', ih]

theorem alookup_aerase_ne (l : List (K × A)) (k k' : K) (h : k' ≠ k) :
    alookup (aerase l k) k' = alookup l k' := by
  induction l with
  | nil => simp [aerase]
  | cons hd tl ih =>
      obtain ⟨k₀, a₀⟩ := hd
      by_cases hk : k = k₀
      · subst hk; simp [aerase, alookup, h]
      · by_cases hk' : k' = k₀
        · subst hk'; simp [aerase, alookup, hk]
        · simp [aerase, alookup, hk, hk', ih]

theorem mem_keys_of_alookup {l : List (K × A)} {k : K} {a : A}
    (h : alookup l k = some a) : k ∈ l.map Prod.fst := by
  induction l with
  | nil => simp [alookup] at h
  | cons hd tl ih =>
      obtain ⟨k₀, a₀⟩ := hd
      by_cases hk : k = k₀
      · subst hk; simp
      · simp [alookup, hk] at h
        simp [ih h]

theorem alookup_aerase_self {l : List (K × A)} (k : K)
    (hnd : (l.map Prod.fst).Nodup) : alookup (aerase l k) k = none := by
  induction l with
  | nil => simp [aerase]
  | cons hd tl ih =>
      obtain ⟨k₀, a₀⟩ := hd
      simp only [List.map_cons, List.nodup_cons] at hnd
      by_cases hk : k = k₀
      · subst hk
        have he : aerase ((k, a₀) :: tl) k = tl := by simp [aerase]
        rw [he]
        cases halo : alookup tl k with
        | none => rfl
        | some a => exact absurd (mem_keys_of_alookup halo) hnd.1
      · simp [aerase, alookup, hk, ih hnd.2]

theorem keys_ainsert_subset {l : List (K × A)} {k x : K} {a : A}
    (h : x ∈ (ainsert l k a).map Prod.fst) : x ∈ l.map Prod.fst ∨ x = k := by
  induction l with
  | nil => simp [ainsert] at h; simp [h]
  | cons hd tl ih =>
      obtain ⟨k₀, a₀⟩ := hd
      by_cases hk : k = k₀
      · subst hk
        have he : ainsert ((k, a₀) :: tl) k a = (k, a) :: tl := by simp [ainsert]
        rw [he] at h
        simp only [List.map_cons, List.mem_cons] at h
        rcases h with h | h
        · right; exact h
        · left; simp only [List.map_cons, List.mem_cons]; right; exact h
      · have he : ainsert ((k₀, a₀) :: tl) k a = (k₀, a₀) :: ainsert tl k a := by
          simp [ainsert, hk]
        rw [he] at h
        simp only [List.map_cons, List.mem_cons] at h
        rcases h with h | h
        · left; simp only [List.map_cons, List.mem_cons]; left; exact h
        · rcases ih h with h' | h'
          · left; simp only [List.map_cons, List.mem_cons]; right; exact h'
          · right; exact h'

theorem nodup_keys_ainsert (l : List (K × A)) (k : K) (a : A)
    (hnd : (l.map Prod.fst).Nodup) : ((ainsert l k a).map Prod.fst).Nodup := by
  induction l with
  | nil => simp [ainsert]
  | cons hd tl ih =>
      obtain ⟨k₀, a₀⟩ := hd
      simp only [List.map_cons, List.nodup_cons] at hnd
      by_cases hk : k = k₀
      · subst hk
        have he : ainsert ((k, a₀) :: tl) k a = (k, a) :: tl := by simp [ainsert]
        rw [he]
        simp only [List.map_cons, List.nodup_cons]
        exact hnd
      · have he : ainsert ((k₀, a₀) :: tl) k a = (k₀, a₀) :: ainsert tl k a := by
          simp [ainsert, hk]
        rw [he]
        simp only [List.map_cons, List.nodup_cons]
        refine ⟨fun hmem => ?_, ih hnd.2⟩
        rcases keys_ainsert_subset hmem with h' | h'
        · exact hnd.1 h'
        · exact hk h'.symm

theorem keys_aerase_sublist (l : List (K × A)) (k : K) :
    ((aerase l k).map Prod.fst).Sublist (l.map Prod.fst) := by
  induction l with
  | nil => simp [aerase]
  | cons hd tl ih =>
      obtain ⟨k₀, a₀⟩ := hd
      by_cases hk : k = k₀
      · subst hk
        have he : aerase ((k, a₀) :: tl) k = tl := by simp [aerase]
        rw [he]
        exact List.sublist_cons_self _ _
      · have he : aerase ((k₀, a₀) :: tl) k = (k₀, a₀) :: aerase tl k := by
          simp [aerase, hk]
        rw [he]
        simp only [List.map_cons]
        exact ih.cons₂ _

theorem nodup_keys_aerase (l : List (K × A)) (k : K)
    (hnd : (l.map Prod.fst).Nodup) : ((aerase l k).map Prod.fst).Nodup :=
  (keys_aerase_sublist l k).nodup hnd

/-! ### Per-field lemmas for the state transformers -/

@[simp]
theorem setRegistry_armed (s : CacheState K V) (role : TimerRole)
    (l : List (K × Nat)) : (setRegistry s role l).armed = s.armed := by
  cases role <;> rfl

@[simp]
theorem setRegistry_table (s : CacheState K V) (role : TimerRole)
    (l : List (K × Nat)) : (setRegistry s role l).table = s.table := by
  cases role <;> rfl

@[simp]
theorem setRegistry_nextId (s : CacheState K V) (role : TimerRole)
    (l : List (K × Nat)) : (setRegistry s role l).nextId = s.nextId := by
  cases role <;> rfl

@[simp]
theorem setRegistry_now (s : CacheState K V) (role : TimerRole)
    (l : List (K × Nat)) : (setRegistry s role l).now = s.now := by
  cases role <;> rfl

@[simp]
theorem setRegistry_log (s : CacheState K V) (role : TimerRole)
    (l : List (K × Nat)) : (setRegistry s role l).log = s.log := by
  cases role <;> rfl

@[simp]
theorem setRegistry_loaderCalls (s : CacheState K V) (role : TimerRole)
    (l : List (K × Nat)) : (setRegistry s role l).loaderCalls = s.loaderCalls := by
  cases role <;> rfl

theorem registryOf_setRegistry (s : CacheState K V) (role : TimerRole)
    (l : List (K × Nat)) (r : TimerRole) :
    registryOf (setRegistry s role l) r = if r = role then l else registryOf s r := by
  cases role <;> cases r <;> simp [registryOf, setRegistry]

theorem registryOf_update_armed (s : CacheState K V) (a : List (TimerInfo K))
    (r : TimerRole) : registryOf { s with armed := a } r = registryOf s r := by
  cases r <;> rfl

theorem registryOf_update_armed_nextId (s : CacheState K V)
    (a : List (TimerInfo K)) (b : Nat) (r : TimerRole) :
    registryOf { s with armed := a, nextId := b } r = registryOf s r := by
  cases r <;> rfl

theorem registryOf_congr {s s' : CacheState K V}
    (hacc : s'.accessTimers = s.accessTimers) (hw : s'.writeTimers = s.writeTimers)
    (hr : s'.refreshTimers = s.refreshTimers) (r : TimerRole) :
    registryOf s' r = registryOf s r := by
  cases r <;> simp [registryOf, hacc, hw, hr]

theorem mem_cancelId {armed : List (TimerInfo K)} {tid : Nat} {t : TimerInfo K} :
    t ∈ cancelId armed tid ↔ t ∈ armed ∧ ¬(t.id = tid) := by
  simp [cancelId, List.mem_filter]

theorem map_cancelId_sublist (armed : List (TimerInfo K)) (tid : Nat)
    (f : TimerInfo K → Nat) :
    ((cancelId armed tid).map f).Sublist (armed.map f) :=
  (List.filter_sublist _).map f

theorem armAt_of_none (s : CacheState K V) (role : TimerRole) (k : K) (d : Nat)
    (p : Option Nat) (h : alookup (registryOf s role) k = none) :
    armAt s role k d p =
      setRegistry
        { s with
          armed := s.armed ++ [⟨s.nextId, k, role, s.now + d, p⟩],
          nextId := s.nextId + 1 }
        role (ainsert (registryOf s role) k s.nextId) := by
  unfold armAt
  rw [h]

theorem armAt_of_some (s : CacheState K V) (role : TimerRole) (k : K) (d : Nat)
    (p : Option Nat) (tid : Nat) (h : alookup (registryOf s role) k = some tid) :
    armAt s role k d p =
      setRegistry
        { s with
          armed := cancelId s.armed tid ++ [⟨s.nextId, k, role, s.now + d, p⟩],
          nextId := s.nextId + 1 }
        role (ainsert (registryOf s role) k s.nextId) := by
  unfold armAt
  rw [h]
  cases role <;> rfl

theorem clearRole_of_none (s : CacheState K V) (role : TimerRole) (k : K)
    (h : alookup (registryOf s role) k = none) : clearRole s role k = s := by
  unfold clearRole
  rw [h]

theorem clearRole_of_some (s : CacheState K V) (role : TimerRole) (k : K)
    (tid : Nat) (h : alookup (registryOf s role) k = some tid) :
    clearRole s role k =
      setRegistry { s with armed := cancelId s.armed tid } role
        (aerase (registryOf s role) k) := by
  unfold clearRole
  rw [h]

@[simp]
theorem armAt_table (s : CacheState K V) (role : TimerRole) (k : K) (d : Nat)
    (p : Option Nat) : (armAt s role k d p).table = s.table := by
  unfold armAt
  cases alookup (registryOf s role) k <;> simp

@[simp]
theorem armAt_log (s : CacheState K V) (role : TimerRole) (k : K) (d : Nat)
    (p : Option Nat) : (armAt s role k d p).log = s.log := by
  unfold armAt
  cases alookup (registryOf s role) k <;> simp

@[simp]
theorem armAt_now (s : CacheState K V) (role : TimerRole) (k : K) (d : Nat)
    (p : Option Nat) : (armAt s role k d p).now = s.now := by
  unfold armAt
  cases alookup (registryOf s role) k <;> simp

@[simp]
theorem armAt_loaderCalls (s : CacheState K V) (role : TimerRole) (k : K)
    (d : Nat) (p : Option Nat) : (armAt s role k d p).loaderCalls = s.loaderCalls := by
  unfold armAt
  cases alookup (registryOf s role) k <;> simp

@[simp]
theorem armAt_nextId (s : CacheState K V) (role : TimerRole) (k : K) (d : Nat)
    (p : Option Nat) : (armAt s role k d p).nextId = s.nextId + 1 := by
  unfold armAt
  cases alookup (registryOf s role) k <;> simp

@[simp]
theorem clearRole_table (s : CacheState K V) (role : TimerRole) (k : K) :
    (clearRole s role k).table = s.table := by
  unfold clearRole
  cases alookup (registryOf s role) k <;> simp

@[simp]
theorem clearRole_log (s : CacheState K V) (role : TimerRole) (k : K) :
    (clearRole s role k).log = s.log := by
  unfold clearRole
  cases alookup (registryOf s role) k <;> simp

@[simp]
theorem clearRole_now (s : CacheState K V) (role : TimerRole) (k : K) :
    (clearRole s role k).now = s.now := by
  unfold clearRole
  cases alookup (registryOf s role) k <;> simp

@[simp]
theorem clearRole_nextId (s : CacheState K V) (role : TimerRole) (k : K) :
    (clearRole s role k).nextId = s.nextId := by
  unfold clearRole
  cases alookup (registryOf s role) k <;> simp

@[simp]
theorem clearRole_loaderCalls (s : CacheState K V) (role : TimerRole) (k : K) :
    (clearRole s role k).loaderCalls = s.loaderCalls := by
  unfold clearRole
  cases alookup (registryOf s role) k <;> simp

@[simp]
theorem setAfterNotify_table (cfg : Config K V E) (s : CacheState K V) (k : K)
    (v : V) : (setAfterNotify cfg s k v).table = ainsert s.table k v := by
  unfold setAfterNotify
  cases alookup s.table k with
  | none => rfl
  | some ov => dsimp only; split <;> rfl

@[simp]
theorem setAfterNotify_armed (cfg : Config K V E) (s : CacheState K V) (k : K)
    (v : V) : (setAfterNotify cfg s k v).armed = s.armed := by
  unfold setAfterNotify
  cases alookup s.table k with
  | none => rfl
  | some ov => dsimp only; split <;> rfl

@[simp]
theorem setAfterNotify_accessTimers (cfg : Config K V E) (s : CacheState K V)
    (k : K) (v : V) : (setAfterNotify cfg s k v).accessTimers = s.accessTimers := by
  unfold setAfterNotify
  cases alookup s.table k with
  | none => rfl
  | some ov => dsimp only; split <;> rfl

@[simp]
theorem setAfterNotify_writeTimers (cfg : Config K V E) (s : CacheState K V)
    (k : K) (v : V) : (setAfterNotify cfg s k v).writeTimers = s.writeTimers := by
  unfold setAfterNotify
  cases alookup s.table k with
  | none => rfl
  | some ov => dsimp only; split <;> rfl

@[simp]
theorem setAfterNotify_refreshTimers (cfg : Config K V E) (s : CacheState K V)
    (k : K) (v : V) : (setAfterNotify cfg s k v).refreshTimers = s.refreshTimers := by
  unfold setAfterNotify
  cases alookup s.table k with
  | none => rfl
  | some ov => dsimp only; split <;> rfl

@[simp]
theorem setAfterNotify_nextId (cfg : Config K V E) (s : CacheState K V) (k : K)
    (v : V) : (setAfterNotify cfg s k v).nextId = s.nextId := by
  unfold setAfterNotify
  cases alookup s.table k with
  | none => rfl
  | some ov => dsimp only; split <;> rfl

@[simp]
theorem setAfterNotify_now (cfg : Config K V E) (s : CacheState K V) (k : K)
    (v : V) : (setAfterNotify cfg s k v).now = s.now := by
  unfold setAfterNotify
  cases alookup s.table k with
  | none => rfl
  | some ov => dsimp only; split <;> rfl

@[simp]
theorem setAfterNotify_loaderCalls (cfg : Config K V E) (s : CacheState K V)
    (k : K) (v : V) : (setAfterNotify cfg s k v).loaderCalls = s.loaderCalls := by
  unfold setAfterNotify
  cases alookup s.table k with
  | none => rfl
  | some ov => dsimp only; split <;> rfl

/-! ### Preservation of the timer well-formedness invariant -/

theorem WF_of_fields {s s' : CacheState K V} (h : WF s) (harm : s'.armed = s.armed)
    (hacc : s'.accessTimers = s.accessTimers) (hw : s'.writeTimers = s.writeTimers)
    (hr : s'.refreshTimers = s.refreshTimers) (hnid : s'.nextId = s.nextId)
    (htab : s'.table = s.table) : WF s' := by
  obtain ⟨h1, h2, h3, h4⟩ := h
  refine ⟨?_, ?_, ?_, ?_⟩
  · intro t ht
    rw [harm] at ht
    rw [registryOf_congr hacc hw hr]
    exact h1 t ht
  · rw [harm]; exact h2
  · intro t ht
    rw [harm] at ht
    rw [hnid]
    exact h3 t ht
  · rw [htab]; exact h4

theorem WF_arm_core (s : CacheState K V) (role : TimerRole) (k : K) (dl : Nat)
    (p : Option Nat) (arm' : List (TimerInfo K))
    (hsub : ∀ t ∈ arm', t ∈ s.armed)
    (hsubl : (arm'.map (fun t => t.id)).Sublist (s.armed.map (fun t => t.id)))
    (hnotkr : ∀ t ∈ arm', ¬(t.role = role ∧ t.key = k))
    (h : WF s) :
    WF (setRegistry
      { s with
        armed := arm' ++ [⟨s.nextId, k, role, dl, p⟩],
        nextId := s.nextId + 1 }
      role (ainsert (registryOf s role) k s.nextId)) := by
  obtain ⟨h1, h2, h3, h4⟩ := h
  refine ⟨?_, ?_, ?_, ?_⟩
  · intro t ht
    rw [setRegistry_armed] at ht
    have ht' : t ∈ arm' ++ [(⟨s.nextId, k, role, dl, p⟩ : TimerInfo K)] := ht
    rw [registryOf_setRegistry]
    rcases List.mem_append.mp ht' with hmem | hmem
    · have hreg := h1 t (hsub t hmem)
      by_cases hrole : t.role = role
      · rw [if_pos hrole]
        have hk : ¬(t.key = k) := fun hk => hnotkr t hmem ⟨hrole, hk⟩
        rw [alookup_ainsert_ne _ _ _ _ hk, ← hrole]
        exact hreg
      · rw [if_neg hrole, registryOf_update_armed_nextId]
        exact hreg
    · simp only [List.mem_singleton] at hmem
      subst hmem
      rw [if_pos rfl]
      exact alookup_ainsert_self _ _ _
  · rw [setRegistry_armed]
    have : ({ s with
        armed := arm' ++ [⟨s.nextId, k, role, dl, p⟩],
        nextId := s.nextId + 1 } : CacheState K V).armed
        = arm' ++ [⟨s.nextId, k, role, dl, p⟩] := rfl
    rw [this, List.map_append]
    rw [List.nodup_append]
    refine ⟨hsubl.nodup h2, List.nodup_singleton _, ?_⟩
    intro x hx hx'
    simp only [List.map_cons, List.map_nil, List.mem_singleton] at hx'
    subst hx'
    have hx2 := hsubl.subset hx
    obtain ⟨u, hu, hux⟩ := List.mem_map.mp hx2
    have := h3 u hu
    omega
  · intro t ht
    rw [setRegistry_armed] at ht
    have ht' : t ∈ arm' ++ [(⟨s.nextId, k, role, dl, p⟩ : TimerInfo K)] := ht
    rw [setRegistry_nextId]
    have hnid : ({ s with
        armed := arm' ++ [⟨s.nextId, k, role, dl, p⟩],
        nextId := s.nextId + 1 } : CacheState K V).nextId = s.nextId + 1 := rfl
    rw [hnid]
    rcases List.mem_append.mp ht' with hmem | hmem
    · exact Nat.lt_succ_of_lt (h3 t (hsub t hmem))
    · simp only [List.mem_singleton] at hmem
      subst hmem
      exact Nat.lt_succ_self _
  · rw [setRegistry_table]
    exact h4

theorem WF_armAt (s : CacheState K V) (role : TimerRole) (k : K) (d : Nat)
    (p : Option Nat) (h : WF s) : WF (armAt s role k d p) := by
  cases halo : alookup (registryOf s role) k with
  | none =>
      rw [armAt_of_none s role k d p halo]
      refine WF_arm_core s role k (s.now + d) p s.armed (fun t ht => ht)
        (List.Sublist.refl _) (fun t ht hkr => ?_) h
      have hreg := h.1 t ht
      rw [hkr.1, hkr.2, halo] at hreg
      cases hreg
  | some tid =>
      rw [armAt_of_some s role k d p tid halo]
      refine WF_arm_core s role k (s.now + d) p (cancelId s.armed tid)
        (fun t ht => (mem_cancelId.mp ht).1) (map_cancelId_sublist _ _ _)
        (fun t ht hkr => ?_) h
      obtain ⟨hmem, hne⟩ := mem_cancelId.mp ht
      have hreg := h.1 t hmem
      rw [hkr.1, hkr.2, halo] at hreg
      exact hne (Option.some.inj hreg).symm

theorem WF_clearRole (s : CacheState K V) (role : TimerRole) (k : K)
    (h : WF s) : WF (clearRole s role k) := by
  obtain ⟨h1, h2, h3, h4⟩ := h
  cases halo : alookup (registryOf s role) k with
  | none => rw [clearRole_of_none s role k halo]; exact ⟨h1, h2, h3, h4⟩
  | some tid =>
      rw [clearRole_of_some s role k tid halo]
      refine ⟨?_, ?_, ?_, ?_⟩
      · intro t ht
        rw [setRegistry_armed] at ht
        have ht' : t ∈ cancelId s.armed tid := ht
        obtain ⟨hmem, hne⟩ := mem_cancelId.mp ht'
        have hreg := h1 t hmem
        rw [registryOf_setRegistry]
        by_cases hrole : t.role = role
        · rw [if_pos hrole]
          by_cases hk : t.key = k
          · exfalso
            rw [hrole, hk, halo] at hreg
            exact hne (Option.some.inj hreg).symm
          · rw [alookup_aerase_ne _ _ _ hk, ← hrole]
            exact hreg
        · rw [if_neg hrole, registryOf_update_armed]
          exact hreg
      · rw [setRegistry_armed]
        exact (map_cancelId_sublist s.armed tid _).nodup h2
      · intro t ht
        rw [setRegistry_armed] at ht
        have ht' : t ∈ cancelId s.armed tid := ht
        obtain ⟨hmem, _⟩ := mem_cancelId.mp ht'
        rw [setRegistry_nextId]
        exact h3 t hmem
      · rw [setRegistry_table]
        exact h4

theorem WF_clearTimers (s : CacheState K V) (k : K) (h : WF s) :
    WF (clearTimers s k) :=
  WF_clearRole _ _ _ (WF_clearRole _ _ _ (WF_clearRole _ _ _ h))

theorem WF_setAfterNotify (cfg : Config K V E) (s : CacheState K V) (k : K)
    (v : V) (h : WF s) : WF (setAfterNotify cfg s k v) := by
  obtain ⟨h1, h2, h3, h4⟩ := h
  refine ⟨?_, ?_, ?_, ?_⟩
  · intro t ht
    rw [setAfterNotify_armed] at ht
    rw [registryOf_congr (setAfterNotify_accessTimers cfg s k v)
      (setAfterNotify_writeTimers cfg s k v) (setAfterNotify_refreshTimers cfg s k v)]
    exact h1 t ht
  · rw [setAfterNotify_armed]; exact h2
  · intro t ht
    rw [setAfterNotify_armed] at ht
    rw [setAfterNotify_nextId]
    exact h3 t ht
  · rw [setAfterNotify_table]
    exact nodup_keys_ainsert _ _ _ h4

theorem WF_maybeAccess (cfg : Config K V E) (s : CacheState K V) (k : K)
    (h : WF s) : WF (maybeSetAfterAccessExpirationTimer cfg s k) := by
  unfold maybeSetAfterAccessExpirationTimer
  split
  · exact WF_armAt _ _ _ _ _ h
  · exact h

theorem WF_maybeWrite (cfg : Config K V E) (s : CacheState K V) (k : K)
    (h : WF s) : WF (maybeSetAfterWriteExpirationTimer cfg s k) := by
  unfold maybeSetAfterWriteExpirationTimer
  split
  · exact WF_armAt _ _ _ _ _ h
  · exact h

theorem WF_maybeRefresh (cfg : Config K V E) (s : CacheState K V) (k : K)
    (h : WF s) : WF (maybeSetRefreshAfterWriteTimer cfg s k) := by
  unfold maybeSetRefreshAfterWriteTimer
  split
  · exact WF_armAt _ _ _ _ _ h
  · exact h

theorem WF_set (cfg : Config K V E) (s : CacheState K V) (k : K) (v : V)
    (h : WF s) : WF (set cfg s k v) :=
  WF_maybeRefresh _ _ _ (WF_maybeAccess _ _ _ (WF_maybeWrite _ _ _
    (WF_setAfterNotify _ _ _ _ h)))

theorem WF_load (cfg : Config K V E) (s : CacheState K V) (k : K) (h : WF s) :
    WF (load cfg s k).2 := by
  unfold load
  cases cfg.loader k with
  | error e =>
      exact WF_of_fields h rfl rfl rfl rfl rfl rfl
  | ok v =>
      exact WF_set _ _ _ _ (WF_of_fields h rfl rfl rfl rfl rfl rfl)

theorem WF_get (cfg : Config K V E) (s : CacheState K V) (k : K) (h : WF s) :
    WF (get cfg s k).2 := by
  unfold get
  cases alookup s.table k with
  | none =>
      cases hld : load cfg s k with
      | mk r s' =>
          have hs' : WF s' := by
            have := WF_load cfg s k h
            rw [hld] at this
            exact this
          cases r with
          | error e => exact hs'
          | ok v => exact WF_maybeAccess _ _ _ hs'
  | some ev =>
      dsimp only
      split
      · exact WF_maybeAccess _ _ _ h
      · cases hld : load cfg s k with
        | mk r s' =>
            have hs' : WF s' := by
              have := WF_load cfg s k h
              rw [hld] at this
              exact this
            cases r with
            | error e => exact hs'
            | ok v => exact WF_maybeAccess _ _ _ hs'

theorem WF_removeWithCause (cfg : Config K V E) (s : CacheState K V) (k : K)
    (cause : RemovalCause) (h : WF s) : WF (removeWithCause cfg s k cause).2 := by
  unfold removeWithCause
  cases alookup s.table k with
  | none => exact h
  | some v =>
      dsimp only
      split
      · have hct := WF_clearTimers s k h
        have hwf2 : WF ({ clearTimers s k with
            table := aerase (clearTimers s k).table k } : CacheState K V) :=
          ⟨hct.1, hct.2.1, hct.2.2.1, nodup_keys_aerase _ _ hct.2.2.2⟩
        dsimp only
        split
        · exact ⟨hwf2.1, hwf2.2.1, hwf2.2.2.1, hwf2.2.2.2⟩
        · exact hwf2
      · exact h

theorem WF_delete (cfg : Config K V E) (s : CacheState K V) (k : K) (h : WF s) :
    WF (delete cfg s k).2 :=
  WF_removeWithCause cfg s k _ h

theorem WF_expire (cfg : Config K V E) (s : CacheState K V) (k : K) (h : WF s) :
    WF (expire cfg s k) :=
  WF_removeWithCause cfg s k _ h

theorem WF_clear (s : CacheState K V) (h : WF s) : WF (clear s) := by
  obtain ⟨h1, h2, h3, h4⟩ := h
  exact ⟨h1, h2, h3, List.nodup_nil⟩

theorem WF_reschedule (s : CacheState K V) (t : TimerInfo K) (h : WF s) :
    WF (reschedule s t) := by
  obtain ⟨h1, h2, h3, h4⟩ := h
  unfold reschedule
  cases t.period with
  | none =>
      refine ⟨?_, ?_, ?_, h4⟩
      · intro u hu
        have hu' : u ∈ cancelId s.armed t.id := hu
        obtain ⟨hmem, _⟩ := mem_cancelId.mp hu'
        rw [registryOf_update_armed]
        exact h1 u hmem
      · exact (map_cancelId_sublist s.armed t.id _).nodup h2
      · intro u hu
        have hu' : u ∈ cancelId s.armed t.id := hu
        obtain ⟨hmem, _⟩ := mem_cancelId.mp hu'
        exact h3 u hmem
  | some p =>
      dsimp only
      have hproj : ∀ u : TimerInfo K,
          ((if u.id == t.id then { u with deadline := u.deadline + p } else u) :
            TimerInfo K).id = u.id ∧
          ((if u.id == t.id then { u with deadline := u.deadline + p } else u) :
            TimerInfo K).key = u.key ∧
          ((if u.id == t.id then { u with deadline := u.deadline + p } else u) :
            TimerInfo K).role = u.role := by
        intro u
        split <;> exact ⟨rfl, rfl, rfl⟩
      refine ⟨?_, ?_, ?_, h4⟩
      · intro u hu
        obtain ⟨w, hw, hwu⟩ := List.mem_map.mp hu
        have := h1 w hw
        rw [registryOf_update_armed]
        rw [← hwu]
        rw [(hproj w).1, (hproj w).2.1, (hproj w).2.2]
        exact this
      · have : (List.map (fun u : TimerInfo K => u.id)
            (s.armed.map (fun u =>
              if u.id == t.id then { u with deadline := u.deadline + p } else u)))
            = s.armed.map (fun u => u.id) := by
          rw [List.map_map]
          exact List.map_congr_left (fun u hu => (hproj u).1)
        rw [this]
        exact h2
      · intro u hu
        obtain ⟨w, hw, hwu⟩ := List.mem_map.mp hu
        have := h3 w hw
        rw [← hwu, (hproj w).1]
        exact this

theorem WF_fireTimer (cfg : Config K V E) (s : CacheState K V) (t : TimerInfo K)
    (h : WF s) : WF (fireTimer cfg s t) := by
  unfold fireTimer
  have hnow : WF ({ s with now := t.deadline } : CacheState K V) :=
    WF_of_fields h rfl rfl rfl rfl rfl rfl
  have hres := WF_reschedule _ t hnow
  cases t.role with
  | refresh => exact WF_load _ _ _ hres
  | access => exact WF_expire _ _ _ hres
  | write => exact WF_expire _ _ _ hres

theorem WF_fireDue (cfg : Config K V E) (fuel : Nat) (s : CacheState K V)
    (target : Nat) (h : WF s) : WF (fireDue cfg fuel s target) := by
  induction fuel generalizing s with
  | zero => exact WF_of_fields h rfl rfl rfl rfl rfl rfl
  | succ n ih =>
      unfold fireDue
      cases earliestDue s target with
      | none => exact WF_of_fields h rfl rfl rfl rfl rfl rfl
      | some t => exact ih _ (WF_fireTimer cfg s t h)

theorem WF_step (cfg : Config K V E) (s : CacheState K V) (op : Op K V)
    (h : WF s) : WF (step cfg s op) := by
  cases op with
  | getOp k => exact WF_get cfg s k h
  | setOp k v => exact WF_set cfg s k v h
  | delOp k => exact WF_delete cfg s k h
  | clearOp => exact WF_clear s h
  | advanceOp fuel target => exact WF_fireDue cfg fuel s target h

theorem WF_run (cfg : Config K V E) (s : CacheState K V) (ops : List (Op K V))
    (h : WF s) : WF (run cfg s ops) := by
  induction ops generalizing s with
  | nil => exact h
  | cons op rest ih => exact ih _ (WF_step cfg s op h)

theorem WF_initState : WF (initState K V) := by
  refine ⟨?_, ?_, ?_, ?_⟩ <;> simp [initState]

theorem countPair_le_one (s : CacheState K V) (k : K) (role : TimerRole)
    (h : WF s) : countPair s k role ≤ 1 := by
  obtain ⟨h1, h2, _, _⟩ := h
  unfold countPair
  cases hfil : s.armed.filter (fun t => t.key == k && t.role == role) with
  | nil => simp
  | cons a tl =>
      cases tl with
      | nil => simp
      | cons b tl2 =>
          exfalso
          have hamem : a ∈ s.armed.filter (fun t => t.key == k && t.role == role) := by
            rw [hfil]; exact List.mem_cons_self _ _
          have hbmem : b ∈ s.armed.filter (fun t => t.key == k && t.role == role) := by
            rw [hfil]; exact List.mem_cons_of_mem _ (List.mem_cons_self _ _)
          obtain ⟨haarm, hap⟩ := List.mem_filter.mp hamem
          obtain ⟨hbarm, hbp⟩ := List.mem_filter.mp hbmem
          simp only [Bool.and_eq_true, beq_iff_eq] at hap hbp
          have hareg := h1 a haarm
          have hbreg := h1 b hbarm
          rw [hap.1, hap.2] at hareg
          rw [hbp.1, hbp.2] at hbreg
          have hid : a.id = b.id := by
            rw [hareg] at hbreg
            exact Option.some.inj hbreg
          have hsub : ((s.armed.filter (fun t => t.key == k && t.role == role)).map
              (fun t => t.id)).Nodup :=
            ((List.filter_sublist _).map _).nodup h2
          rw [hfil] at hsub
          simp only [List.map_cons, List.nodup_cons, List.mem_cons] at hsub
          exact hsub.1 (Or.inl hid)

/-! ### Observable-field lemmas for the public operations -/

@[simp]
theorem maybeAccess_table (cfg : Config K V E) (s : CacheState K V) (k : K) :
    (maybeSetAfterAccessExpirationTimer cfg s k).table = s.table := by
  unfold maybeSetAfterAccessExpirationTimer
  split <;> simp

@[simp]
theorem maybeAccess_log (cfg : Config K V E) (s : CacheState K V) (k : K) :
    (maybeSetAfterAccessExpirationTimer cfg s k).log = s.log := by
  unfold maybeSetAfterAccessExpirationTimer
  split <;> simp

@[simp]
theorem maybeAccess_now (cfg : Config K V E) (s : CacheState K V) (k : K) :
    (maybeSetAfterAccessExpirationTimer cfg s k).now = s.now := by
  unfold maybeSetAfterAccessExpirationTimer
  split <;> simp

@[simp]
theorem maybeAccess_loaderCalls (cfg : Config K V E) (s : CacheState K V) (k : K) :
    (maybeSetAfterAccessExpirationTimer cfg s k).loaderCalls = s.loaderCalls := by
  unfold maybeSetAfterAccessExpirationTimer
  split <;> simp

@[simp]
theorem maybeWrite_table (cfg : Config K V E) (s : CacheState K V) (k : K) :
    (maybeSetAfterWriteExpirationTimer cfg s k).table = s.table := by
  unfold maybeSetAfterWriteExpirationTimer
  split <;> simp

@[simp]
theorem maybeWrite_log (cfg : Config K V E) (s : CacheState K V) (k : K) :
    (maybeSetAfterWriteExpirationTimer cfg s k).log = s.log := by
  unfold maybeSetAfterWriteExpirationTimer
  split <;> simp

@[simp]
theorem maybeWrite_now (cfg : Config K V E) (s : CacheState K V) (k : K) :
    (maybeSetAfterWriteExpirationTimer cfg s k).now = s.now := by
  unfold maybeSetAfterWriteExpirationTimer
  split <;> simp

@[simp]
theorem maybeWrite_loaderCalls (cfg : Config K V E) (s : CacheState K V) (k : K) :
    (maybeSetAfterWriteExpirationTimer cfg s k).loaderCalls = s.loaderCalls := by
  unfold maybeSetAfterWriteExpirationTimer
  split <;> simp

@[simp]
theorem maybeRefresh_table (cfg : Config K V E) (s : CacheState K V) (k : K) :
    (maybeSetRefreshAfterWriteTimer cfg s k).table = s.table := by
  unfold maybeSetRefreshAfterWriteTimer
  split <;> simp

@[simp]
theorem maybeRefresh_log (cfg : Config K V E) (s : CacheState K V) (k : K) :
    (maybeSetRefreshAfterWriteTimer cfg s k).log = s.log := by
  unfold maybeSetRefreshAfterWriteTimer
  split <;> simp

@[simp]
theorem maybeRefresh_now (cfg : Config K V E) (s : CacheState K V) (k : K) :
    (maybeSetRefreshAfterWriteTimer cfg s k).now = s.now := by
  unfold maybeSetRefreshAfterWriteTimer
  split <;> simp

@[simp]
theorem maybeRefresh_loaderCalls (cfg : Config K V E) (s : CacheState K V) (k : K) :
    (maybeSetRefreshAfterWriteTimer cfg s k).loaderCalls = s.loaderCalls := by
  unfold maybeSetRefreshAfterWriteTimer
  split <;> simp

@[simp]
theorem set_table (cfg : Config K V E) (s : CacheState K V) (k : K) (v : V) :
    (set cfg s k v).table = ainsert s.table k v := by
  unfold set
  simp

@[simp]
theorem set_log (cfg : Config K V E) (s : CacheState K V) (k : K) (v : V) :
    (set cfg s k v).log = (setAfterNotify cfg s k v).log := by
  unfold set
  simp

@[simp]
theorem set_now (cfg : Config K V E) (s : CacheState K V) (k : K) (v : V) :
    (set cfg s k v).now = s.now := by
  unfold set
  simp

@[simp]
theorem set_loaderCalls (cfg : Config K V E) (s : CacheState K V) (k : K) (v : V) :
    (set cfg s k v).loaderCalls = s.loaderCalls := by
  unfold set
  simp

@[simp]
theorem clearTimers_table (s : CacheState K V) (k : K) :
    (clearTimers s k).table = s.table := by
  unfold clearTimers
  simp

@[simp]
theorem clearTimers_log (s : CacheState K V) (k : K) :
    (clearTimers s k).log = s.log := by
  unfold clearTimers
  simp

@[simp]
theorem reschedule_table (s : CacheState K V) (t : TimerInfo K) :
    (reschedule s t).table = s.table := by
  unfold reschedule
  cases t.period <;> rfl

@[simp]
theorem reschedule_log (s : CacheState K V) (t : TimerInfo K) :
    (reschedule s t).log = s.log := by
  unfold reschedule
  cases t.period <;> rfl

@[simp]
theorem reschedule_loaderCalls (s : CacheState K V) (t : TimerInfo K) :
    (reschedule s t).loaderCalls = s.loaderCalls := by
  unfold reschedule
  cases t.period <;> rfl

/-! ### Behaviour of `setAfterNotify`, `get` and `removeWithCause` -/

theorem setAfterNotify_log_live (cfg : Config K V E) (s : CacheState K V)
    (k : K) (v1 v : V) (halo : alookup s.table k = some v1)
    (htr : cfg.truthy v1 = true) (hOn : cfg.hasOnRemove = true) :
    (setAfterNotify cfg s k v).log = s.log ++ [⟨k, v1, .REPLACED⟩] := by
  simp [setAfterNotify, halo, htr, hOn]

theorem setAfterNotify_log_dead (cfg : Config K V E) (s : CacheState K V)
    (k : K) (v : V) (h : isLive cfg s k = false) :
    (setAfterNotify cfg s k v).log = s.log := by
  unfold isLive at h
  cases halo : alookup s.table k with
  | none => simp [setAfterNotify, halo]
  | some ov =>
      simp only [halo] at h
      simp [setAfterNotify, halo, h]

theorem get_hit (cfg : Config K V E) (s : CacheState K V) (k : K) (w : V)
    (halo : alookup s.table k = some w) (htr : cfg.truthy w = true) :
    get cfg s k = (.ok w, maybeSetAfterAccessExpirationTimer cfg s k) := by
  simp [get, halo, htr]

theorem get_miss_ok (cfg : Config K V E) (s : CacheState K V) (k : K) (v : V)
    (habs : alookup s.table k = none) (hld : cfg.loader k = .ok v) :
    get cfg s k = (.ok v,
      maybeSetAfterAccessExpirationTimer cfg
        (set cfg { s with loaderCalls := s.loaderCalls + 1 } k v) k) := by
  simp [get, load, habs, hld]

theorem removeWithCause_live (cfg : Config K V E) (s : CacheState K V) (k : K)
    (cause : RemovalCause) (v : V) (halo : alookup s.table k = some v)
    (htr : cfg.truthy v = true) (hOn : cfg.hasOnRemove = true) :
    removeWithCause cfg s k cause =
      (true,
        { clearTimers s k with
          table := aerase s.table k,
          log := s.log ++ [⟨k, v, cause⟩] }) := by
  simp [removeWithCause, halo, htr, hOn]

theorem removeWithCause_dead (cfg : Config K V E) (s : CacheState K V) (k : K)
    (cause : RemovalCause) (h : isLive cfg s k = false) :
    removeWithCause cfg s k cause = (false, s) := by
  unfold isLive at h
  cases halo : alookup s.table k with
  | none => simp [removeWithCause, halo]
  | some v =>
      simp only [halo] at h
      simp [removeWithCause, halo, h]

theorem clearRole_armed_sub (s : CacheState K V) (role : TimerRole) (k : K) :
    ∀ t ∈ (clearRole s role k).armed, t ∈ s.armed := by
  intro t ht
  cases halo : alookup (registryOf s role) k with
  | none => rw [clearRole_of_none s role k halo] at ht; exact ht
  | some tid =>
      rw [clearRole_of_some s role k tid halo, setRegistry_armed] at ht
      exact (mem_cancelId.mp ht).1

theorem clearRole_no_registered (s : CacheState K V) (role : TimerRole) (k : K)
    (t : TimerInfo K) (ht : t ∈ (clearRole s role k).armed)
    (hreg : alookup (registryOf s role) k = some t.id) : False := by
  cases halo : alookup (registryOf s role) k with
  | none => rw [halo] at hreg; cases hreg
  | some tid =>
      rw [clearRole_of_some s role k tid halo, setRegistry_armed] at ht
      obtain ⟨_, hne⟩ := mem_cancelId.mp ht
      rw [halo] at hreg
      exact hne (Option.some.inj hreg).symm

theorem clearRole_registry_other (s : CacheState K V) (role : TimerRole) (k : K)
    (r : TimerRole) (h : ¬(r = role)) :
    registryOf (clearRole s role k) r = registryOf s r := by
  cases halo : alookup (registryOf s role) k with
  | none => rw [clearRole_of_none s role k halo]
  | some tid =>
      rw [clearRole_of_some s role k tid halo, registryOf_setRegistry, if_neg h,
        registryOf_update_armed]

theorem clearTimers_no_key (s : CacheState K V) (k : K) (h : WF s) :
    ∀ t ∈ (clearTimers s k).armed, ¬(t.key = k) := by
  intro t ht hk
  unfold clearTimers at ht
  have ht_w := clearRole_armed_sub _ _ _ t ht
  have ht_a := clearRole_armed_sub _ _ _ t ht_w
  have ht_s := clearRole_armed_sub _ _ _ t ht_a
  have hreg := h.1 t ht_s
  rw [hk] at hreg
  cases hrole : t.role with
  | access =>
      rw [hrole] at hreg
      exact clearRole_no_registered s .access k t ht_a hreg
  | write =>
      rw [hrole] at hreg
      refine clearRole_no_registered (clearRole s .access k) .write k t ht_w ?_
      rw [clearRole_registry_other s .access k .write (by simp)]
      exact hreg
  | refresh =>
      rw [hrole] at hreg
      refine clearRole_no_registered (clearRole (clearRole s .access k) .write k)
        .refresh k t ht ?_
      rw [clearRole_registry_other _ .write k .refresh (by simp),
        clearRole_registry_other s .access k .refresh (by simp)]
      exact hreg

/-! ### Indistinguishable configurations drive identical steps -/

theorem maybeAccess_congr {c1 c2 : Config K V E} (h : cfgSim c1 c2)
    (s : CacheState K V) (k : K) :
    maybeSetAfterAccessExpirationTimer c1 s k
      = maybeSetAfterAccessExpirationTimer c2 s k := by
  unfold maybeSetAfterAccessExpirationTimer
  rw [h.2.2.2.1, h.2.2.2.2.1]

theorem maybeWrite_congr {c1 c2 : Config K V E} (h : cfgSim c1 c2)
    (s : CacheState K V) (k : K) :
    maybeSetAfterWriteExpirationTimer c1 s k
      = maybeSetAfterWriteExpirationTimer c2 s k := by
  unfold maybeSetAfterWriteExpirationTimer
  rw [h.2.2.2.2.2.1, h.2.2.2.2.2.2.1]

theorem maybeRefresh_congr {c1 c2 : Config K V E} (h : cfgSim c1 c2)
    (s : CacheState K V) (k : K) :
    maybeSetRefreshAfterWriteTimer c1 s k
      = maybeSetRefreshAfterWriteTimer c2 s k := by
  unfold maybeSetRefreshAfterWriteTimer
  rw [h.2.2.2.2.2.2.2.1, h.2.2.2.2.2.2.2.2]

theorem setAfterNotify_congr {c1 c2 : Config K V E} (h : cfgSim c1 c2)
    (s : CacheState K V) (k : K) (v : V) :
    setAfterNotify c1 s k v = setAfterNotify c2 s k v := by
  unfold setAfterNotify
  rw [h.2.1, h.2.2.1]

theorem set_congr {c1 c2 : Config K V E} (h : cfgSim c1 c2) (s : CacheState K V)
    (k : K) (v : V) : set c1 s k v = set c2 s k v := by
  unfold set
  rw [setAfterNotify_congr h, maybeWrite_congr h, maybeAccess_congr h,
    maybeRefresh_congr h]

theorem load_congr {c1 c2 : Config K V E} (h : cfgSim c1 c2) (s : CacheState K V)
    (k : K) : load c1 s k = load c2 s k := by
  unfold load
  rw [h.1]
  cases c2.loader k with
  | error e => rfl
  | ok v => dsimp only; rw [set_congr h]

theorem get_congr {c1 c2 : Config K V E} (h : cfgSim c1 c2) (s : CacheState K V)
    (k : K) : get c1 s k = get c2 s k := by
  unfold get
  rw [h.2.1, load_congr h]
  cases alookup s.table k with
  | none =>
      dsimp only
      cases load c2 s k with
      | mk r s' =>
          cases r with
          | error e => rfl
          | ok v => dsimp only; rw [maybeAccess_congr h]
  | some ev =>
      dsimp only
      split
      · rw [maybeAccess_congr h]
      · cases load c2 s k with
        | mk r s' =>
            cases r with
            | error e => rfl
            | ok v => dsimp only; rw [maybeAccess_congr h]

theorem removeWithCause_congr {c1 c2 : Config K V E} (h : cfgSim c1 c2)
    (s : CacheState K V) (k : K) (cause : RemovalCause) :
    removeWithCause c1 s k cause = removeWithCause c2 s k cause := by
  unfold removeWithCause
  rw [h.2.1, h.2.2.1]

theorem expire_congr {c1 c2 : Config K V E} (h : cfgSim c1 c2)
    (s : CacheState K V) (k : K) : expire c1 s k = expire c2 s k := by
  unfold expire
  rw [removeWithCause_congr h]

theorem fireTimer_congr {c1 c2 : Config K V E} (h : cfgSim c1 c2)
    (s : CacheState K V) (t : TimerInfo K) :
    fireTimer c1 s t = fireTimer c2 s t := by
  unfold fireTimer
  cases t.role with
  | access => dsimp only; rw [expire_congr h]
  | write => dsimp only; rw [expire_congr h]
  | refresh => dsimp only; rw [load_congr h]

theorem fireDue_congr {c1 c2 : Config K V E} (h : cfgSim c1 c2) (fuel : Nat)
    (s : CacheState K V) (target : Nat) :
    fireDue c1 fuel s target = fireDue c2 fuel s target := by
  induction fuel generalizing s with
  | zero => rfl
  | succ n ih =>
      unfold fireDue
      cases earliestDue s target with
      | none => rfl
      | some t => dsimp only; rw [fireTimer_congr h, ih]

theorem step_congr {c1 c2 : Config K V E} (h : cfgSim c1 c2) (s : CacheState K V)
    (op : Op K V) : step c1 s op = step c2 s op := by
  cases op with
  | getOp k => unfold step; dsimp only; rw [get_congr h]
  | setOp k v => unfold step; dsimp only; rw [set_congr h]
  | delOp k => unfold step; dsimp only; unfold delete; rw [removeWithCause_congr h]
  | clearOp => rfl
  | advanceOp fuel target => unfold step; dsimp only; rw [fireDue_congr h]

/-! ### Write-expiry scenario lemmas -/

theorem set_write_only (cfg : Config K V E) (T : Nat)
    (hW : cfg.expireAfterWrite = some T) (hTne : ¬(T = 0))
    (hA : cfg.expireAfterAccess = none) (hR : cfg.refreshAfterWrite = none)
    (tab : List (K × V)) (wtl : List (K × Nat)) (arm : List (TimerInfo K))
    (nid n lc : Nat) (lg : List (Notice K V)) (k : K) (v : V) :
    set cfg (⟨tab, [], wtl, [], arm, nid, n, lg, lc⟩ : CacheState K V) k v
      = ⟨ainsert tab k v, [], ainsert wtl k nid, [],
          (match alookup wtl k with
           | some tid => cancelId arm tid
           | none => arm) ++ [⟨nid, k, .write, n + T, none⟩],
          nid + 1, n,
          (setAfterNotify cfg (⟨tab, [], wtl, [], arm, nid, n, lg, lc⟩ :
            CacheState K V) k v).log,
          lc⟩ := by
  have hAid : ∀ s' : CacheState K V, maybeSetAfterAccessExpirationTimer cfg s' k = s' := by
    intro s'
    unfold maybeSetAfterAccessExpirationTimer
    simp [hA, numTruthy]
  have hRid : ∀ s' : CacheState K V, maybeSetRefreshAfterWriteTimer cfg s' k = s' := by
    intro s'
    unfold maybeSetRefreshAfterWriteTimer
    simp [hR, numTruthy]
  unfold set
  rw [hRid, hAid]
  unfold maybeSetAfterWriteExpirationTimer
  rw [hW]
  have hnt : numTruthy (some T) = true := by simp [numTruthy, hTne]
  rw [hnt]
  simp only [if_true, Option.getD_some]
  have hregw : registryOf (setAfterNotify cfg
      (⟨tab, [], wtl, [], arm, nid, n, lg, lc⟩ : CacheState K V) k v) .write
      = wtl := by
    simp [registryOf]
  cases hwl : alookup wtl k with
  | none =>
      rw [armAt_of_none _ _ _ _ _ (by rw [hregw, hwl])]
      simp [setRegistry, hregw]
  | some tid =>
      rw [armAt_of_some _ _ _ _ _ tid (by rw [hregw, hwl])]
      simp [setRegistry, hregw, cancelId]

theorem advance_single_write (cfg : Config K V E) (tb : List (K × V)) (k : K)
    (vv : V) (i nid n2 lc : Nat) (lg : List (Notice K V)) (D target : Nat)
    (hval : alookup tb k = some vv) (htr : cfg.truthy vv = true)
    (htab : (tb.map Prod.fst).Nodup) :
    (target < D →
      advanceTo cfg (⟨tb, [], [(k, i)], [], [⟨i, k, .write, D, none⟩], nid, n2,
          lg, lc⟩ : CacheState K V) target
        = ⟨tb, [], [(k, i)], [], [⟨i, k, .write, D, none⟩], nid, target, lg, lc⟩) ∧
    (D ≤ target →
      advanceTo cfg (⟨tb, [], [(k, i)], [], [⟨i, k, .write, D, none⟩], nid, n2,
          lg, lc⟩ : CacheState K V) target
        = ⟨aerase tb k, [], [], [], [], nid, target,
            lg ++ (if cfg.hasOnRemove then [⟨k, vv, .EXPIRED⟩] else []), lc⟩) := by
  constructor
  · intro hlt
    have hnd : ¬(D ≤ target) := by omega
    unfold advanceTo
    have hlen : ((⟨tb, [], [(k, i)], [], [⟨i, k, .write, D, none⟩], nid, n2, lg,
        lc⟩ : CacheState K V)).armed.length = 1 := rfl
    rw [hlen]
    unfold fireDue
    have hdue : earliestDue (⟨tb, [], [(k, i)], [], [⟨i, k, .write, D, none⟩],
        nid, n2, lg, lc⟩ : CacheState K V) target = none := by
      unfold earliestDue
      simp [hnd]
    rw [hdue]
  · intro hle
    unfold advanceTo
    have hlen : ((⟨tb, [], [(k, i)], [], [⟨i, k, .write, D, none⟩], nid, n2, lg,
        lc⟩ : CacheState K V)).armed.length = 1 := rfl
    rw [hlen]
    unfold fireDue
    have hdue : earliestDue (⟨tb, [], [(k, i)], [], [⟨i, k, .write, D, none⟩],
        nid, n2, lg, lc⟩ : CacheState K V) target
        = some ⟨i, k, .write, D, none⟩ := by
      unfold earliestDue
      simp [hle]
    rw [hdue]
    have hft : fireTimer cfg (⟨tb, [], [(k, i)], [], [⟨i, k, .write, D, none⟩],
        nid, n2, lg, lc⟩ : CacheState K V) ⟨i, k, .write, D, none⟩
        = ⟨aerase tb k, [], [], [], [], nid, D,
            lg ++ (if cfg.hasOnRemove then [⟨k, vv, .EXPIRED⟩] else []), lc⟩ := by
      unfold fireTimer reschedule
      dsimp only
      unfold expire removeWithCause
      rw [show alookup (⟨tb, [], [(k, i)], [], cancelId [⟨i, k, .write, D, none⟩] i,
        nid, D, lg, lc⟩ : CacheState K V).table k = some vv from hval]
      dsimp only
      rw [htr]
      cases hOn : cfg.hasOnRemove with
      | true =>
          simp [clearTimers, clearRole, registryOf, setRegistry, alookup, aerase,
            cancelId, hOn]
      | false =>
          simp [clearTimers, clearRole, registryOf, setRegistry, alookup, aerase,
            cancelId, hOn]
    dsimp only
    rw [hft]
    unfold fireDue
    rfl

/-! ### The claims -/

/-- Claim C1 (amended: the cached value must be truthy — see the
counterexample for falsy values): for a key absent from the table whose
loader succeeds with a truthy value, `get` invokes the loader exactly once
and returns the loaded value; an immediately following `get` returns the
cached value without invoking the loader again; and in general a hit on a
truthy value performs no load. -/
theorem claim_C1_amended (cfg : Config K V E) (s : CacheState K V) (k : K)
    (v : V) (habs : alookup s.table k = none) (hld : cfg.loader k = .ok v)
    (htr : cfg.truthy v = true) :
    (get cfg s k).1 = .ok v ∧
    (get cfg s k).2.loaderCalls = s.loaderCalls + 1 ∧
    (get cfg (get cfg s k).2 k).1 = .ok v ∧
    (get cfg (get cfg s k).2 k).2.loaderCalls = (get cfg s k).2.loaderCalls ∧
    (∀ (s' : CacheState K V) (w : V), alookup s'.table k = some w →
      cfg.truthy w = true →
      (get cfg s' k).1 = .ok w ∧ (get cfg s' k).2.loaderCalls = s'.loaderCalls) := by
  have hhit : ∀ (s' : CacheState K V) (w : V), alookup s'.table k = some w →
      cfg.truthy w = true →
      (get cfg s' k).1 = .ok w ∧ (get cfg s' k).2.loaderCalls = s'.loaderCalls := by
    intro s' w halo htw
    rw [get_hit cfg s' k w halo htw]
    exact ⟨rfl, by simp⟩
  have hm := get_miss_ok cfg s k v habs hld
  have htab2 : alookup (get cfg s k).2.table k = some v := by
    rw [hm]
    simp
  refine ⟨?_, ?_, ?_, ?_, hhit⟩
  · rw [hm]
  · rw [hm]; simp
  · exact (hhit _ v htab2 htr).1
  · exact (hhit _ v htab2 htr).2

/-- Claim C1 (counterexample): with a loader returning the falsy value `0`,
the first `get` loads once, and a second immediate `get` on the same key
invokes the loader again even though the key was already loaded, refuting the
unqualified claim. -/
theorem claim_C1_counterexample :
    (run cfgZeroLoader (initState Nat Nat) [.getOp 5]).loaderCalls = 1 ∧
    (run cfgZeroLoader (initState Nat Nat) [.getOp 5, .getOp 5]).loaderCalls = 2 := by
  constructor <;> rfl

/-- Claim C1 (witness): concrete instance of the amended claim. -/
theorem claim_C1_witness :
    (get cfgPlain (initState Nat Nat) 4).1 = .ok 5 ∧
    (get cfgPlain (initState Nat Nat) 4).2.loaderCalls = 1 := by
  have h := claim_C1_amended cfgPlain (initState Nat Nat) 4 5 rfl rfl rfl
  exact ⟨h.1, h.2.1⟩

/-- Claim C2: when a live (truthy) value `v1` exists for `k`, `set k v2`
appends exactly one `REPLACED` notification for `(k, v1)`, and at the moment
the listener runs — the `setAfterNotify` prefix of `set`, before any timer is
touched — the table already maps `k` to `v2`; if no live value existed, no
notification is emitted and the value is simply installed. -/
theorem claim_C2_set_replaces_then_notifies (cfg : Config K V E)
    (s : CacheState K V) (k : K) (v1 v2 : V)
    (halo : alookup s.table k = some v1) (htr : cfg.truthy v1 = true)
    (hOn : cfg.hasOnRemove = true) :
    (set cfg s k v2).log = s.log ++ [⟨k, v1, .REPLACED⟩] ∧
    alookup (set cfg s k v2).table k = some v2 ∧
    (setAfterNotify cfg s k v2).log = s.log ++ [⟨k, v1, .REPLACED⟩] ∧
    alookup (setAfterNotify cfg s k v2).table k = some v2 ∧
    (∀ s' : CacheState K V, isLive cfg s' k = false →
      (set cfg s' k v2).log = s'.log ∧
      alookup (set cfg s' k v2).table k = some v2) := by
  refine ⟨?_, ?_, ?_, ?_, ?_⟩
  · rw [set_log]
    exact setAfterNotify_log_live cfg s k v1 v2 halo htr hOn
  · rw [set_table]
    exact alookup_ainsert_self _ _ _
  · exact setAfterNotify_log_live cfg s k v1 v2 halo htr hOn
  · rw [setAfterNotify_table]
    exact alookup_ainsert_self _ _ _
  · intro s' hdead
    refine ⟨?_, ?_⟩
    · rw [set_log]
      exact setAfterNotify_log_dead cfg s' k v2 hdead
    · rw [set_table]
      exact alookup_ainsert_self _ _ _

/-- Claim C2 (witness): concrete instance. -/
theorem claim_C2_witness :
    (set cfgListener exState1 1 2).log = [] ++ [⟨1, 5, .REPLACED⟩] ∧
    alookup (set cfgListener exState1 1 2).table 1 = some 2 := by
  have h := claim_C2_set_replaces_then_notifies cfgListener exState1 1 5 2 rfl rfl rfl
  exact ⟨h.1, h.2.1⟩

/-- Claim C3: `delete k` on a live (truthy) entry reports `true`, removes the
entry, leaves no armed timer for `k` of any role, and emits exactly one
`EXPLICIT_DELETE` notification; on a key with no live value it is a no-op
reporting `false` with no notification. -/
theorem claim_C3_delete (cfg : Config K V E) (s : CacheState K V) (k : K)
    (hWF : WF s) (hOn : cfg.hasOnRemove = true) :
    (∀ v : V, alookup s.table k = some v → cfg.truthy v = true →
      (delete cfg s k).1 = true ∧
      has (delete cfg s k).2 k = false ∧
      (∀ t ∈ (delete cfg s k).2.armed, ¬(t.key = k)) ∧
      (delete cfg s k).2.log = s.log ++ [⟨k, v, .EXPLICIT_DELETE⟩]) ∧
    (isLive cfg s k = false → delete cfg s k = (false, s)) := by
  constructor
  · intro v halo htr
    have hrm := removeWithCause_live cfg s k .EXPLICIT_DELETE v halo htr hOn
    unfold delete
    rw [hrm]
    refine ⟨rfl, ?_, ?_, rfl⟩
    · simp [has, alookup_aerase_self k hWF.2.2.2]
    · intro t ht
      exact clearTimers_no_key s k hWF t ht
  · intro h
    unfold delete
    exact removeWithCause_dead cfg s k _ h

/-- Claim C3 (witness): concrete instance, on a state with one entry and its
armed write-expiry timer. -/
theorem claim_C3_witness :
    (delete cfgWrite5 (run cfgWrite5 (initState Nat Nat) [.setOp 1 5]) 1).1 = true ∧
    has (delete cfgWrite5 (run cfgWrite5 (initState Nat Nat) [.setOp 1 5]) 1).2 1
      = false := by
  have h := (claim_C3_delete cfgWrite5 (run cfgWrite5 (initState Nat Nat) [.setOp 1 5])
    1 (by unfold WF; decide) rfl).1 5 (by decide) rfl
  exact ⟨h.1, h.2.1⟩

/-- Claim C4: if the key is absent and the loader fails, `get` propagates the
failure and the cache state is exactly as before the call — no entry, no
timer, no notification; only the loader-invocation count has moved. -/
theorem claim_C4_loader_failure (cfg : Config K V E) (s : CacheState K V)
    (k : K) (e : E) (habs : alookup s.table k = none)
    (herr : cfg.loader k = .error e) :
    get cfg s k = (.error e, { s with loaderCalls := s.loaderCalls + 1 }) := by
  simp [get, load, habs, herr]

/-- Claim C4 (witness): concrete instance. -/
theorem claim_C4_witness :
    get cfgErrLoader (initState Nat Nat) 7
      = (.error (), { initState Nat Nat with loaderCalls := 1 }) :=
  claim_C4_loader_failure cfgErrLoader (initState Nat Nat) 7 () rfl rfl

/-- Claim C5: in every state reachable from a fresh cache by any sequence of
`get`, `set`, `delete`, `clear` and timer firings, at most one timer per
(key, role) pair is armed. -/
theorem claim_C5_single_timer_per_key_role (cfg : Config K V E)
    (ops : List (Op K V)) (k : K) (role : TimerRole) :
    countPair (run cfg (initState K V) ops) k role ≤ 1 :=
  countPair_le_one _ _ _ (WF_run cfg _ ops WF_initState)

/-- Claim C7: `clear` unconditionally empties the table — `size` is `0` and
`has` is `false` for every key — and invokes the removal listener for no
entry (the notification log is untouched). -/
theorem claim_C7_clear (s : CacheState K V) :
    size (clear s) = 0 ∧ (∀ k : K, has (clear s) k = false) ∧
    (clear s).log = s.log := by
  refine ⟨rfl, ?_, rfl⟩
  intro k
  simp [has, clear]

/-- Claim C8: a present but falsy value is treated as absent by every path
that tests the value itself: `has` is still `true`, but `get` re-invokes the
loader, `delete` is a no-op reporting `false` that leaves the whole state (and
its timers) unchanged, and `set` over the falsy old value emits no `REPLACED`
notification. -/
theorem claim_C8_falsy_values (cfg : Config K V E) (s : CacheState K V) (k : K)
    (v : V) (halo : alookup s.table k = some v) (hfalsy : cfg.truthy v = false) :
    has s k = true ∧
    (get cfg s k).2.loaderCalls = s.loaderCalls + 1 ∧
    delete cfg s k = (false, s) ∧
    (∀ v2 : V, (set cfg s k v2).log = s.log) := by
  have hdead : isLive cfg s k = false := by simp [isLive, halo, hfalsy]
  refine ⟨?_, ?_, ?_, ?_⟩
  · simp [has, halo]
  · cases hld : cfg.loader k with
    | error e => simp [get, load, halo, hfalsy, hld]
    | ok w => simp [get, load, halo, hfalsy, hld]
  · unfold delete
    exact removeWithCause_dead cfg s k _ hdead
  · intro v2
    rw [set_log]
    exact setAfterNotify_log_dead cfg s k v2 hdead

/-- Claim C8 (witness): concrete instance with the falsy entry `1 ↦ 0`. -/
theorem claim_C8_witness :
    has exState0 1 = true ∧ delete cfgListener exState0 1 = (false, exState0) := by
  have h := claim_C8_falsy_values cfgListener exState0 1 0 rfl rfl
  exact ⟨h.1, h.2.2.1⟩

/-- Claim C9: firing a refresh timer for a key holding a live truthy value,
with a listener installed and a successful loader, appends exactly one
`REPLACED` notification carrying the old value — even though the entry is
never removed: the new value is installed and the key remains present. -/
theorem claim_C9_refresh_notifies_replaced (cfg : Config K V E)
    (s : CacheState K V) (t : TimerInfo K) (vOld vNew : V)
    (hrole : t.role = .refresh) (halo : alookup s.table t.key = some vOld)
    (htr : cfg.truthy vOld = true) (hOn : cfg.hasOnRemove = true)
    (hld : cfg.loader t.key = .ok vNew) :
    (fireTimer cfg s t).log = s.log ++ [⟨t.key, vOld, .REPLACED⟩] ∧
    alookup (fireTimer cfg s t).table t.key = some vNew ∧
    has (fireTimer cfg s t) t.key = true := by
  unfold fireTimer
  rw [hrole]
  dsimp only
  have halo2 : alookup ({ reschedule { s with now := t.deadline } t with
      loaderCalls := (reschedule { s with now := t.deadline } t).loaderCalls + 1 } :
      CacheState K V).table t.key = some vOld := by
    simpa using halo
  refine ⟨?_, ?_, ?_⟩
  · simp only [load, hld]
    rw [set_log, setAfterNotify_log_live _ _ _ vOld _ halo2 htr hOn]
    simp
  · simp [load, hld]
  · simp [has, load, hld]

/-- Claim C9 (witness): concrete instance. -/
theorem claim_C9_witness :
    (fireTimer cfgRefresh exState1 ⟨0, 1, .refresh, 3, some 3⟩).log
      = [] ++ [⟨1, 5, .REPLACED⟩] ∧
    alookup (fireTimer cfgRefresh exState1 ⟨0, 1, .refresh, 3, some 3⟩).table 1
      = some 8 := by
  have h := claim_C9_refresh_notifies_replaced cfgRefresh exState1
    ⟨0, 1, .refresh, 3, some 3⟩ 5 8 rfl rfl rfl rfl rfl
  exact ⟨h.1, h.2.1⟩

/-- Claim C10: configuring a timer duration as `0` disables that role
entirely — the cache steps exactly as if the option had been omitted, and the
corresponding `maybeSet…Timer` is the identity. -/
theorem claim_C10_zero_duration_disables (cfg : Config K V E)
    (s : CacheState K V) (op : Op K V) (k : K) :
    step { cfg with expireAfterWrite := some 0 } s op
      = step { cfg with expireAfterWrite := none } s op ∧
    step { cfg with expireAfterAccess := some 0 } s op
      = step { cfg with expireAfterAccess := none } s op ∧
    step { cfg with refreshAfterWrite := some 0 } s op
      = step { cfg with refreshAfterWrite := none } s op ∧
    maybeSetAfterWriteExpirationTimer { cfg with expireAfterWrite := some 0 } s k
      = s ∧
    maybeSetAfterAccessExpirationTimer { cfg with expireAfterAccess := some 0 } s k
      = s ∧
    maybeSetRefreshAfterWriteTimer { cfg with refreshAfterWrite := some 0 } s k
      = s := by
  refine ⟨step_congr ?_ s op, step_congr ?_ s op, step_congr ?_ s op, ?_, ?_, ?_⟩
  · exact ⟨rfl, rfl, rfl, rfl, rfl, rfl, rfl, rfl, rfl⟩
  · exact ⟨rfl, rfl, rfl, rfl, rfl, rfl, rfl, rfl, rfl⟩
  · exact ⟨rfl, rfl, rfl, rfl, rfl, rfl, rfl, rfl, rfl⟩
  · simp [maybeSetAfterWriteExpirationTimer, numTruthy]
  · simp [maybeSetAfterAccessExpirationTimer, numTruthy]
  · simp [maybeSetRefreshAfterWriteTimer, numTruthy]

/-- Claim C6 (counterexample): with `expireAfterWrite = 5`, after `set k 0`
(a falsy value) the key is still present at the deadline — the fired timer's
`expire` declines to remove a falsy value, refuting "`has(k)` false at/after
T" for arbitrary values. -/
theorem claim_C6_counterexample :
    has (advanceTo cfgWrite5 (set cfgWrite5 (initState Nat Nat) 1 0) 5) 1
      = true := by
  rfl

/-- Claim C6 (amended: the written values must be truthy — see the
counterexample for a falsy value, which the fired timer declines to remove):
with only `expireAfterWrite = T` configured and no timers armed, after
`set k v` the key stays present strictly before `T` elapses and is removed
with cause `EXPIRED` at or after the deadline, and a second `set k v'` at
`t < T` resets the deadline to `t + T`. -/
theorem claim_C6_amended (cfg : Config K V E) (s : CacheState K V) (k : K)
    (v v' : V) (T : Nat) (hW : cfg.expireAfterWrite = some T) (hT : 0 < T)
    (hA : cfg.expireAfterAccess = none) (hR : cfg.refreshAfterWrite = none)
    (harm : s.armed = []) (hacc : s.accessTimers = []) (hwt : s.writeTimers = [])
    (hrt : s.refreshTimers = []) (htab : (s.table.map Prod.fst).Nodup)
    (htv : cfg.truthy v = true) (htv' : cfg.truthy v' = true) :
    (∀ t, t < T → has (advanceTo cfg (set cfg s k v) (s.now + t)) k = true) ∧
    (∀ t, T ≤ t → has (advanceTo cfg (set cfg s k v) (s.now + t)) k = false) ∧
    (cfg.hasOnRemove = true → ∀ t, T ≤ t →
      (advanceTo cfg (set cfg s k v) (s.now + t)).log
        = (set cfg s k v).log ++ [⟨k, v, .EXPIRED⟩]) ∧
    (∀ t u, t < T →
      (u < T →
        has (advanceTo cfg
          (set cfg (advanceTo cfg (set cfg s k v) (s.now + t)) k v')
          (s.now + t + u)) k = true) ∧
      (T ≤ u →
        has (advanceTo cfg
          (set cfg (advanceTo cfg (set cfg s k v) (s.now + t)) k v')
          (s.now + t + u)) k = false)) := by
  obtain ⟨tab, aT, wT, rT, arm, nid, n, lg, lc⟩ := s
  replace harm : arm = [] := harm
  replace hacc : aT = [] := hacc
  replace hwt : wT = [] := hwt
  replace hrt : rT = [] := hrt
  replace htab : (tab.map Prod.fst).Nodup := htab
  subst harm hacc hwt hrt
  dsimp only
  have hTne : ¬(T = 0) := by omega
  have hset1 := set_write_only cfg T hW hTne hA hR tab [] [] nid n lc lg k v
  simp only [alookup_nil, ainsert, List.nil_append] at hset1
  have hvtab : alookup (ainsert tab k v) k = some v := alookup_ainsert_self _ _ _
  have hnd1 : ((ainsert tab k v).map Prod.fst).Nodup := nodup_keys_ainsert _ _ _ htab
  have hadv := fun target => advance_single_write cfg (ainsert tab k v) k v nid
    (nid + 1) n lc
    ((setAfterNotify cfg (⟨tab, [], [], [], [], nid, n, lg, lc⟩ :
      CacheState K V) k v).log)
    (n + T) target hvtab htv hnd1
  refine ⟨?_, ?_, ?_, ?_⟩
  · intro t ht
    rw [hset1, (hadv (n + t)).1 (by omega)]
    simp [has, hvtab]
  · intro t ht
    rw [hset1, (hadv (n + t)).2 (by omega)]
    simp [has, alookup_aerase_self k hnd1]
  · intro hOn t ht
    rw [hset1, (hadv (n + t)).2 (by omega)]
    simp [hOn]
  · intro t u ht
    rw [hset1, (hadv (n + t)).1 (by omega)]
    have hset2 := set_write_only cfg T hW hTne hA hR (ainsert tab k v) [(k, nid)]
      [⟨nid, k, .write, n + T, none⟩] (nid + 1) (n + t) lc
      ((setAfterNotify cfg (⟨tab, [], [], [], [], nid, n, lg, lc⟩ :
        CacheState K V) k v).log) k v'
    simp only [alookup, ainsert, cancelId, List.filter, beq_self_eq_true,
      Bool.not_true, if_pos, List.nil_append] at hset2
    rw [hset2]
    have hvtab2 : alookup (ainsert (ainsert tab k v) k v') k = some v' :=
      alookup_ainsert_self _ _ _
    have hnd2 := nodup_keys_ainsert (ainsert tab k v) k v' hnd1
    have hadv2 := fun target => advance_single_write cfg
      (ainsert (ainsert tab k v) k v') k v' (nid + 1) (nid + 2) (n + t) lc
      ((setAfterNotify cfg (⟨ainsert tab k v, [], [(k, nid)], [],
        [⟨nid, k, .write, n + T, none⟩], nid + 1, n + t,
        (setAfterNotify cfg (⟨tab, [], [], [], [], nid, n, lg, lc⟩ :
          CacheState K V) k v).log, lc⟩ : CacheState K V) k v').log)
      (n + t + T) target hvtab2 htv' hnd2
    constructor
    · intro hu
      rw [(hadv2 (n + t + u)).1 (by omega)]
      simp [has, hvtab2]
    · intro hu
      rw [(hadv2 (n + t + u)).2 (by omega)]
      simp [has, alookup_aerase_self k hnd2]

/-- Claim C6 (witness): concrete instance of the amended claim with the
truthy value `9` and `T = 5`. -/
theorem claim_C6_witness :
    has (advanceTo cfgWrite5 (set cfgWrite5 (initState Nat Nat) 1 9) (0 + 4)) 1
      = true ∧
    has (advanceTo cfgWrite5 (set cfgWrite5 (initState Nat Nat) 1 9) (0 + 5)) 1
      = false := by
  have h := claim_C6_amended cfgWrite5 (initState Nat Nat) 1 9 9 5 rfl
    (by omega) rfl rfl rfl rfl rfl rfl (by decide) rfl rfl
  exact ⟨h.1 4 (by omega), h.2.1 5 (by omega)⟩

end Yaloc
